import Mathlib

/-!
Shallow embedding of the backtesting and signal-decision core of the
finanzasnetwork-bot repository (files `app/bot.py` and
`app/trading_engine.py`).

Modelling conventions:
* Python floats are modelled as exact rationals (`ℚ`).  `round(x, n)`
  (Python's banker's rounding) is modelled by `round2` / `round4`
  (round half to even on exact rationals); all concrete counterexamples
  below use values that are exactly representable in binary floating
  point, so the rational model and the float behaviour coincide there.
* Bar timestamps are modelled as `String` (the code only ever calls
  `isoformat()` on them, which is injective on datetimes).
* Square roots (`** 0.5`) are irrational, hence not representable in `ℚ`;
  wherever the code computes a square root the embedding carries the
  radicand (see `get_annualization_factor`) or the arguments of the
  expression (see `SharpeVal.computed`).  Every claim treated here
  depends only on which branch was taken, never on the magnitude of the
  square root.
-/

/-- Round half to even of a rational to an integer: the tie-breaking rule
used by Python's builtin `round` on floats. -/
def roundHalfEven (x : ℚ) : ℤ :=
  let f : ℤ := x.floor
  let frac : ℚ := x - f
  if frac < 1/2 then f
  else if 1/2 < frac then f + 1
  else if f % 2 = 0 then f else f + 1

/-- Python `round(x, 2)` modelled on exact rationals. -/
def round2 (x : ℚ) : ℚ := (roundHalfEven (x * 100) : ℚ) / 100

/-- Python `round(x, 4)` modelled on exact rationals. -/
def round4 (x : ℚ) : ℚ := (roundHalfEven (x * 10000) : ℚ) / 10000

/-- One row of the dataframe iterated by `run_backtest` in `app/bot.py`
(after `ta.rsi` has filled the RSI column and `dropna` removed the
warm-up rows): the bar timestamp, its close price, and its RSI value. -/
structure BarRow where
  ts : String
  close : ℚ
  rsi : ℚ
deriving Repr, DecidableEq

/-- The `Trade` pydantic model of `app/bot.py` (lines 33-43). -/
structure Trade where
  entry_time : String
  exit_time : String
  entry_price : ℚ
  exit_price : ℚ
  profit : ℚ
  profit_pct : ℚ
  shares : ℚ
deriving Repr, DecidableEq

/-- The `BacktestRequest` pydantic model of `app/bot.py` (lines 17-31).
The pydantic field constraints (`initial_capital > 0`,
`position_size ∈ (0,1]`, `rsi_sell > rsi_buy`) are not baked into the
type; they appear as hypotheses of the theorems that need them. -/
structure BacktestRequest where
  symbol : String
  interval : String
  rsi_length : ℕ
  rsi_buy : ℚ
  rsi_sell : ℚ
  initial_capital : ℚ
  position_size : ℚ
deriving Repr, DecidableEq

/-- Builds the `Trade` appended by `run_backtest` (lines 224-232 and
246-254 of `app/bot.py`): entry/exit prices, profit and profit_pct are
rounded to 2 decimals, shares to 4 decimals.  The code computes
`profit = sale_value - position * entry_price` with
`sale_value = position * exit_price`, i.e. `p*ex - p*en` before
rounding, and `profit_pct = (exit_price - entry_price)/entry_price*100`
before rounding.  `entry_time` is `None` until a buy happens; the code
would raise on `None.isoformat()`, but every call site is guarded by
`position > 0`, which implies an entry happened; `Option.getD`'s default
is unreachable there. -/
def mkTrade (et : Option String) (xt : String) (en ex p : ℚ) : Trade :=
  { entry_time := et.getD ""
  , exit_time := xt
  , entry_price := round2 en
  , exit_price := round2 ex
  , profit := round2 (p * ex - p * en)
  , profit_pct := round2 ((ex - en) / en * 100)
  , shares := round4 p }

/-- The mutable loop state of `run_backtest` (lines 194-199 of
`app/bot.py`): `capital`, `position` (share quantity), `entry_price`,
`entry_time`, the trade ledger and the equity curve. -/
structure BTState where
  capital : ℚ
  position : ℚ
  entry_price : ℚ
  entry_time : Option String
  trades : List Trade
  equity : List ℚ
deriving Repr, DecidableEq

/-- One iteration of the `for index, row in df.iterrows()` loop of
`run_backtest` (lines 202-236 of `app/bot.py`): a level-triggered buy
when flat (`position == 0 and rsi_value < request.rsi_buy and
capital > 0`), a level-triggered sell when long (`position > 0 and
rsi_value > request.rsi_sell`), then one equity point
`capital + position * current_price` appended. -/
def processBar (req : BacktestRequest) (st : BTState) (bar : BarRow) : BTState :=
  let st1 :=
    if st.position = 0 ∧ bar.rsi < req.rsi_buy ∧ 0 < st.capital then
      let amount := st.capital * req.position_size
      { st with position := amount / bar.close
              , capital := st.capital - amount
              , entry_price := bar.close
              , entry_time := some bar.ts }
    else if 0 < st.position ∧ req.rsi_sell < bar.rsi then
      { st with capital := st.capital + st.position * bar.close
              , trades := st.trades ++
                  [mkTrade st.entry_time bar.ts st.entry_price bar.close st.position]
              , position := 0 }
    else st
  { st1 with equity := st1.equity ++ [st1.capital + st1.position * bar.close] }

/-- The initial state of `run_backtest` (lines 194-199 of `app/bot.py`):
full capital, no position, and the equity curve seeded with
`initial_capital`. -/
def initState (req : BacktestRequest) : BTState :=
  { capital := req.initial_capital
  , position := 0
  , entry_price := 0
  , entry_time := none
  , trades := []
  , equity := [req.initial_capital] }

/-- Step 6 of `run_backtest` (lines 238-254 of `app/bot.py`): if a
position is still open after the loop, force-close it at the last bar's
close (`df.iloc[-1]['close']`, `df.index[-1]`) and append a final
trade.  The `none` branch of `getLast?` is unreachable when
`position > 0`, since opening a position requires at least one bar. -/
def closeOpenPosition (st : BTState) (bars : List BarRow) : BTState :=
  if 0 < st.position then
    match bars.getLast? with
    | some lb =>
        { st with capital := st.capital + st.position * lb.close
                , trades := st.trades ++
                    [mkTrade st.entry_time lb.ts st.entry_price lb.close st.position]
                , position := 0 }
    | none => st
  else st

/-- The simulation part of `run_backtest` (steps 4-6, lines 194-257 of
`app/bot.py`), as a pure function from the cleaned, RSI-annotated bar
rows to the final loop state.  `final_capital` is the `capital` field of
the result; the endpoint then returns `round(final_capital, 2)`. -/
def runBacktest (req : BacktestRequest) (bars : List BarRow) : BTState :=
  closeOpenPosition (bars.foldl (processBar req) (initState req)) bars

/-- Sum of a list of rationals. -/
def listSum (l : List ℚ) : ℚ := l.foldl (· + ·) 0

/-- Mean of a list of rationals (`pd.Series.mean`); division by zero on
the empty list yields the rational junk value `0`, which is only ever
reached when the code would produce NaN, and NaN compares false against
`> 0` exactly as `0` does in the guard that consumes this value. -/
def listMean (l : List ℚ) : ℚ := listSum l / l.length

/-- Sample variance with the `ddof = 1` convention of `pd.Series.std`
(squared).  For lists of length ≤ 1 the division by `length - 1` is a
division by zero, yielding `0`; pandas yields NaN there, and the only
consumer is the guard `std > 0`, where NaN and `0` behave identically.
`std > 0 ↔ variance > 0` since squaring is monotone on nonnegatives. -/
def sampleVariance (l : List ℚ) : ℚ :=
  listSum (l.map (fun r => (r - listMean l) ^ 2)) / ((l.length : ℚ) - 1)

/-- `pd.Series(equity_curve).pct_change().dropna()`: the list of
period-over-period returns `(x_{i+1} - x_i) / x_i` of consecutive
elements.  (`dropna` removes exactly the leading NaN produced by
`pct_change` when all equity values are nonzero, which holds for every
curve produced by a backtest over positive close prices.) -/
def pctChanges : List ℚ → List ℚ
  | [] => []
  | [_] => []
  | x :: y :: rest => (y - x) / x :: pctChanges (y :: rest)

/-- One step of the running-peak drawdown loop of `calculate_metrics`
(lines 127-134 of `app/bot.py`).  The accumulator is `(peak, max_dd)`. -/
def ddStep (acc : ℚ × ℚ) (value : ℚ) : ℚ × ℚ :=
  let peak := if value > acc.1 then value else acc.1
  let dd := (peak - value) / peak
  (peak, if dd > acc.2 then dd else acc.2)

/-- The max-drawdown fraction computed by `calculate_metrics`
(lines 127-134 of `app/bot.py`): peak seeded with `initial_capital`,
`max_dd` seeded with `0`. -/
def maxDrawdown (initial : ℚ) (equity : List ℚ) : ℚ :=
  (equity.foldl ddStep (initial, 0)).2

/-- The Sharpe value stored in the metrics dict.  `zero` is the explicit
`sharpe = 0` branch (line 143 of `app/bot.py`).  `computed` carries the
arguments of the expression
`round((returns.mean() / returns.std()) * annualization_factor, 2)`
(lines 140-141, 147): the mean and the sample variance of the return
series and the interval string fed to `get_annualization_factor`.  The
numeric value involves two square roots and is therefore carried
symbolically; no claim depends on its magnitude, only on which branch
was taken. -/
inductive SharpeVal where
  | zero
  | computed (mean variance : ℚ) (interval : String)
deriving Repr, DecidableEq

/-- The dict returned by `calculate_metrics` (`app/bot.py`
lines 117-147). -/
structure MetricsOut where
  winning_trades : ℕ
  losing_trades : ℕ
  win_rate : ℚ
  max_drawdown : ℚ
  sharpe : Option SharpeVal
deriving Repr, DecidableEq

/-- `calculate_metrics` of `app/bot.py` (lines 117-147).  Empty ledger:
all-zero metrics with a null Sharpe.  Otherwise: win/loss counts by the
sign of `profit` (`> 0` wins, `≤ 0` losses), win rate in percent, max
drawdown in percent, and the Sharpe branch: null when the equity curve
has at most one point, the explicit `0` when the return series has zero
standard deviation (equivalently zero sample variance), and the
computed value otherwise. -/
def calculate_metrics (trades : List Trade) (initial_capital : ℚ)
    (equity_curve : List ℚ) (interval : String) : MetricsOut :=
  if trades.isEmpty then
    { winning_trades := 0, losing_trades := 0, win_rate := 0
    , max_drawdown := 0, sharpe := none }
  else
    let winning := (trades.filter (fun t => 0 < t.profit)).length
    let losing := (trades.filter (fun t => t.profit ≤ 0)).length
    let sharpe : Option SharpeVal :=
      if 1 < equity_curve.length then
        let returns := pctChanges equity_curve
        if 0 < sampleVariance returns then
          some (SharpeVal.computed (listMean returns) (sampleVariance returns) interval)
        else
          some SharpeVal.zero
      else none
    { winning_trades := winning
    , losing_trades := losing
    , win_rate := (winning : ℚ) / (trades.length : ℚ) * 100
    , max_drawdown := maxDrawdown initial_capital equity_curve * 100
    , sharpe := sharpe }

/-- Python's `str.lower()` on the ASCII interval strings this code
sees, implemented per character (core `String.toLower` is an external
loop that the kernel cannot evaluate). -/
def pyLower (s : String) : String := ⟨s.data.map Char.toLower⟩

/-- Python's single-character `c in s` substring test: membership of
the character among the string's characters. -/
def pyContainsChar (s : String) (c : Char) : Bool := s.data.contains c

/-- Removes every occurrence of a character from a string: Python's
`interval.replace('m', '')` for a single-character pattern. -/
def removeAll (s : String) (c : Char) : String :=
  ⟨s.data.filter (fun d => d ≠ c)⟩

/-- Parses a nonempty all-digit character list as a natural number;
`none` otherwise.  Helper for `pyIntParse`. -/
def pyIntDigits (cs : List Char) : Option ℕ :=
  if cs = [] then none
  else if cs.all Char.isDigit then
    some (cs.foldl (fun acc c => 10 * acc + (c.toNat - 48)) 0)
  else none

/-- Python's `int(s)` on the strings reachable here: an optional sign
followed by one or more digits; anything else raises `ValueError`,
modelled as `none`.  (Python also strips whitespace and allows digit
group underscores; none of the interval strings exercised here use
either.) -/
def pyIntParse (s : String) : Option ℤ :=
  match s.data with
  | '+' :: rest => (pyIntDigits rest).map Int.ofNat
  | '-' :: rest => (pyIntDigits rest).map (fun n => -(n : ℤ))
  | cs => (pyIntDigits cs).map Int.ofNat

/-- `get_annualization_factor` of `app/bot.py` (lines 104-115).  The
code returns `radicand ** 0.5`; since square roots are irrational this
embedding returns the radicand, which determines the factor uniquely
(the square root is strictly monotone).  `Except.error ()` models an
uncaught exception: `int(...)` raising `ValueError` when the string
left after deleting the matched unit letter is not an integer literal,
or `ZeroDivisionError` when it parses to `0`.  Note the code tests
`'m' in interval` (substring membership anywhere, after lowercasing),
not a trailing unit letter, and `replace` deletes every occurrence of
the letter. -/
def get_annualization_factor (interval : String) : Except Unit ℚ :=
  let iv := pyLower interval
  if pyContainsChar iv 'm' then
    match pyIntParse (removeAll iv 'm') with
    | none => Except.error ()
    | some n => if n = 0 then Except.error () else Except.ok ((365 * 24 * 60 : ℚ) / (n : ℚ))
  else if pyContainsChar iv 'h' then
    match pyIntParse (removeAll iv 'h') with
    | none => Except.error ()
    | some n => if n = 0 then Except.error () else Except.ok ((365 * 24 : ℚ) / (n : ℚ))
  else if pyContainsChar iv 'd' then
    match pyIntParse (removeAll iv 'd') with
    | none => Except.error ()
    | some n => if n = 0 then Except.error () else Except.ok ((365 : ℚ) / (n : ℚ))
  else Except.ok 365

/-- The per-bar signal of the strategy contract in
`app/trading_engine.py`. -/
inductive Signal where
  | buy
  | sell
  | hold
deriving Repr, DecidableEq

/-- The buy condition of `RSIStrategy.generate_signals`
(`app/trading_engine.py` line 42):
`(df['rsi'] < rsi_buy) & (df['rsi'].shift(1) >= rsi_buy)` on the pair
(previous RSI, current RSI); a NaN (warm-up) value on either side makes
every comparison false, modelled by `Option` with `none` for NaN. -/
def crossBelow (thr : ℚ) : Option ℚ × Option ℚ → Bool
  | (some prev, some cur) => decide (cur < thr) && decide (thr ≤ prev)
  | _ => false

/-- The sell condition of `RSIStrategy.generate_signals`
(`app/trading_engine.py` line 44):
`(df['rsi'] > rsi_sell) & (df['rsi'].shift(1) <= rsi_sell)`. -/
def crossAbove (thr : ℚ) : Option ℚ × Option ℚ → Bool
  | (some prev, some cur) => decide (thr < cur) && decide (prev ≤ thr)
  | _ => false

/-- The signal written for one row by `RSIStrategy.generate_signals`
(lines 40-46 of `app/trading_engine.py`): start from HOLD, the buy
rows are overwritten with BUY, then the sell rows with SELL, so a row
satisfying both conditions would end as SELL (the two conditions are in
fact mutually exclusive for every pair of thresholds). -/
def signalFor (buyThr sellThr : ℚ) (pc : Option ℚ × Option ℚ) : Signal :=
  if crossAbove sellThr pc then Signal.sell
  else if crossBelow buyThr pc then Signal.buy
  else Signal.hold

/-- `RSIStrategy.generate_signals` of `app/trading_engine.py`
(lines 38-47), as a function of the RSI column (`ta.rsi` is an external
library call; its output column, `none` on warm-up rows, is the input
here).  `df['rsi'].shift(1)` pairs each row with its predecessor, NaN
(`none`) before the first row. -/
def generate_signals (buyThr sellThr : ℚ) (rsi : List (Option ℚ)) : List Signal :=
  (List.zip (none :: rsi) rsi).map (signalFor buyThr sellThr)

/-- What one iteration of `trading_engine_worker`'s `while True` loop
(`app/trading_engine.py` lines 125-166) observes from the outside
world: a successfully computed last-row signal, an insufficient-data
fetch (the `len(df) < 50` skip), or an exception of class `Exception`
raised anywhere inside the `try` block. -/
inductive IterEvent where
  | fetched (sig : Signal)
  | insufficientData
  | raisedError
deriving Repr, DecidableEq

/-- The decision emitted (printed) by one worker iteration. -/
inductive WorkerDecision where
  | decideBuy
  | decideSell
  | decideHold
  | skippedData
  | backoffError
deriving Repr, DecidableEq

/-- One iteration of `trading_engine_worker` (`app/trading_engine.py`
lines 125-166) as a function of the `position_open` flag and the
observed event: BUY while flat opens, SELL while open closes, anything
else holds; insufficient data skips; an exception is absorbed by the
`except Exception` handler (lines 162-164), which logs, sleeps and
leaves `position_open` untouched. -/
def workerIteration (pos : Bool) : IterEvent → Bool × WorkerDecision
  | IterEvent.fetched Signal.buy =>
      if pos then (pos, WorkerDecision.decideHold) else (true, WorkerDecision.decideBuy)
  | IterEvent.fetched Signal.sell =>
      if pos then (false, WorkerDecision.decideSell) else (pos, WorkerDecision.decideHold)
  | IterEvent.fetched Signal.hold => (pos, WorkerDecision.decideHold)
  | IterEvent.insufficientData => (pos, WorkerDecision.skippedData)
  | IterEvent.raisedError => (pos, WorkerDecision.backoffError)

/-- The worker loop run over a finite prefix of its (conceptually
infinite) event stream: it consumes every event in turn, threading the
`position_open` flag, and emits one decision per event.  Totality of
this function on every event list is the embedded form of "no event,
exceptions included, terminates the loop". -/
def workerRun (pos : Bool) : List IterEvent → Bool × List WorkerDecision
  | [] => (pos, [])
  | e :: es =>
      let r := workerIteration pos e
      let rest := workerRun r.1 es
      (rest.1, r.2 :: rest.2)

/-- A concrete trade record used by the witness instantiations below
(its field values are irrelevant to the statements that use it). -/
def sampleTrade : Trade :=
  { entry_time := "e", exit_time := "x", entry_price := 1, exit_price := 2
  , profit := 3, profit_pct := 4, shares := 5 }

/-- A concrete request used by witness and counterexample
instantiations: the pydantic defaults of `BacktestRequest`
(rsi_buy 30, rsi_sell 70, initial_capital 1000, position_size 1). -/
def sampleReq : BacktestRequest :=
  { symbol := "GGAL", interval := "1d", rsi_length := 14
  , rsi_buy := 30, rsi_sell := 70, initial_capital := 1000, position_size := 1 }

theorem round2_eighth : round2 (1/8) = 3/25 := by with_unfolding_all rfl

theorem round2_neg : round2 (-9921875/10000) = -99219/100 := by with_unfolding_all rfl

/-! ### Helper lemmas about the simulation step -/

theorem processBar_buy (req : BacktestRequest) (st : BTState) (bar : BarRow)
    (h1 : st.position = 0) (h2 : bar.rsi < req.rsi_buy) (h3 : 0 < st.capital) :
    processBar req st bar =
      { st with position := st.capital * req.position_size / bar.close
              , capital := st.capital - st.capital * req.position_size
              , entry_price := bar.close
              , entry_time := some bar.ts
              , equity := st.equity ++
                  [st.capital - st.capital * req.position_size +
                    st.capital * req.position_size / bar.close * bar.close] } := by
  unfold processBar
  rw [if_pos ⟨h1, h2, h3⟩]

theorem processBar_sell (req : BacktestRequest) (st : BTState) (bar : BarRow)
    (h2 : 0 < st.position) (h3 : req.rsi_sell < bar.rsi) :
    processBar req st bar =
      { st with capital := st.capital + st.position * bar.close
              , trades := st.trades ++
                  [mkTrade st.entry_time bar.ts st.entry_price bar.close st.position]
              , position := 0
              , equity := st.equity ++
                  [st.capital + st.position * bar.close + 0 * bar.close] } := by
  unfold processBar
  rw [if_neg (fun h => h2.ne' h.1), if_pos ⟨h2, h3⟩]

theorem processBar_hold (req : BacktestRequest) (st : BTState) (bar : BarRow)
    (h1 : ¬ (st.position = 0 ∧ bar.rsi < req.rsi_buy ∧ 0 < st.capital))
    (h2 : ¬ (0 < st.position ∧ req.rsi_sell < bar.rsi)) :
    processBar req st bar =
      { st with equity := st.equity ++ [st.capital + st.position * bar.close] } := by
  unfold processBar
  rw [if_neg h1, if_neg h2]

theorem processBar_equity (req : BacktestRequest) (st : BTState) (bar : BarRow) :
    (processBar req st bar).equity =
      st.equity ++ [(processBar req st bar).capital +
        (processBar req st bar).position * bar.close] := by
  unfold processBar
  split
  · rfl
  · split
    · rfl
    · rfl

theorem closeOpenPosition_equity (st : BTState) (bars : List BarRow) :
    (closeOpenPosition st bars).equity = st.equity := by
  unfold closeOpenPosition
  split
  · split
    · rfl
    · rfl
  · rfl

theorem fold_equity_length (req : BacktestRequest) :
    ∀ (bars : List BarRow) (st : BTState),
      ((bars.foldl (processBar req) st).equity).length = st.equity.length + bars.length := by
  intro bars
  induction bars with
  | nil => intro st; simp
  | cons b bs ih =>
      intro st
      have h := processBar_equity req st b
      calc ((List.foldl (processBar req) st (b :: bs)).equity).length
          = ((bs.foldl (processBar req) (processBar req st b)).equity).length := rfl
        _ = ((processBar req st b).equity).length + bs.length := ih _
        _ = st.equity.length + (bs.length + 1) := by rw [h]; simp; omega
        _ = st.equity.length + (b :: bs).length := by simp

theorem fold_equity_head (req : BacktestRequest) :
    ∀ (bars : List BarRow) (st : BTState), st.equity ≠ [] →
      ((bars.foldl (processBar req) st).equity.head? = st.equity.head? ∧
        (bars.foldl (processBar req) st).equity ≠ []) := by
  intro bars
  induction bars with
  | nil => intro st h; exact ⟨rfl, h⟩
  | cons b bs ih =>
      intro st h
      have hne : (processBar req st b).equity ≠ [] := by
        rw [processBar_equity]
        exact fun hx => h (List.append_eq_nil.mp hx).1
      have hh : (processBar req st b).equity.head? = st.equity.head? := by
        rw [processBar_equity]
        obtain ⟨a, t, hat⟩ := List.exists_cons_of_ne_nil h
        rw [hat]
        rfl
      obtain ⟨ih1, ih2⟩ := ih (processBar req st b) hne
      exact ⟨by rw [show (List.foldl (processBar req) st (b :: bs)) =
        (bs.foldl (processBar req) (processBar req st b)) from rfl, ih1, hh], ih2⟩

/-- C6: for every backtest run over the cleaned bars, the equity curve
has length `bars.length + 1`, is never empty, starts with
`initial_capital`, and each simulated bar appends exactly one value,
`capital + position * close`, to it. -/
theorem equity_curve_shape (req : BacktestRequest) (bars : List BarRow) :
    (runBacktest req bars).equity.length = bars.length + 1
    ∧ (runBacktest req bars).equity ≠ []
    ∧ (runBacktest req bars).equity.head? = some req.initial_capital
    ∧ ∀ (st : BTState) (bar : BarRow),
        (processBar req st bar).equity =
          st.equity ++ [(processBar req st bar).capital +
            (processBar req st bar).position * bar.close] := by
  have hE : (runBacktest req bars).equity =
      (bars.foldl (processBar req) (initState req)).equity := by
    unfold runBacktest
    exact closeOpenPosition_equity _ _
  have hinit : (initState req).equity = [req.initial_capital] := rfl
  have hne : (initState req).equity ≠ [] := by rw [hinit]; simp
  refine ⟨?_, ?_, ?_, fun st bar => processBar_equity req st bar⟩
  · rw [hE, fold_equity_length req bars (initState req), hinit]
    simp [Nat.add_comm]
  · rw [hE]
    exact (fold_equity_head req bars (initState req) hne).2
  · rw [hE, (fold_equity_head req bars (initState req) hne).1, hinit]
    rfl

/-- C10: the simulation loop of `run_backtest` is level-triggered, not
edge-triggered: `processBar` is a function of the current state and the
current bar alone (no previous-bar RSI enters it), a position is opened
on every bar processed while flat with positive capital whose RSI is
strictly below `rsi_buy` (at that bar's close), a position is closed on
every bar processed while long whose RSI is strictly above `rsi_sell`,
and on every other bar the state only gains an equity point. -/
theorem sim_level_triggered (req : BacktestRequest) (st : BTState) (bar : BarRow) :
    (st.position = 0 → bar.rsi < req.rsi_buy → 0 < st.capital →
      (processBar req st bar).position = st.capital * req.position_size / bar.close
      ∧ (processBar req st bar).entry_price = bar.close
      ∧ (processBar req st bar).entry_time = some bar.ts
      ∧ (processBar req st bar).capital = st.capital - st.capital * req.position_size
      ∧ (processBar req st bar).trades = st.trades)
    ∧ (0 < st.position → req.rsi_sell < bar.rsi →
      (processBar req st bar).position = 0
      ∧ (processBar req st bar).capital = st.capital + st.position * bar.close
      ∧ (processBar req st bar).trades = st.trades ++
          [mkTrade st.entry_time bar.ts st.entry_price bar.close st.position])
    ∧ (¬ (st.position = 0 ∧ bar.rsi < req.rsi_buy ∧ 0 < st.capital) →
      ¬ (0 < st.position ∧ req.rsi_sell < bar.rsi) →
      processBar req st bar =
        { st with equity := st.equity ++ [st.capital + st.position * bar.close] }) := by
  refine ⟨fun h1 h2 h3 => ?_, fun h2 h3 => ?_, fun h1 h2 => ?_⟩
  · rw [processBar_buy req st bar h1 h2 h3]
    exact ⟨rfl, rfl, rfl, rfl, rfl⟩
  · rw [processBar_sell req st bar h2 h3]
    exact ⟨rfl, rfl, rfl⟩
  · exact processBar_hold req st bar h1 h2

/-- Witness for C10: a flat state with capital 1000 and a bar with RSI
20 (below the buy threshold 30) opens a position at that bar's close,
regardless of any history. -/
theorem sim_level_triggered_witness :
    (processBar sampleReq ⟨1000, 0, 0, none, [], [1000]⟩ ⟨"t1", 50, 20⟩).position
        = 1000 * 1 / 50
    ∧ (processBar sampleReq ⟨1000, 0, 0, none, [], [1000]⟩ ⟨"t1", 50, 20⟩).entry_price = 50
    ∧ (processBar sampleReq ⟨1000, 0, 0, none, [], [1000]⟩ ⟨"t1", 50, 20⟩).entry_time
        = some "t1"
    ∧ (processBar sampleReq ⟨1000, 0, 0, none, [], [1000]⟩ ⟨"t1", 50, 20⟩).capital
        = 1000 - 1000 * 1
    ∧ (processBar sampleReq ⟨1000, 0, 0, none, [], [1000]⟩ ⟨"t1", 50, 20⟩).trades = [] :=
  (sim_level_triggered sampleReq ⟨1000, 0, 0, none, [], [1000]⟩ ⟨"t1", 50, 20⟩).1
    rfl (by norm_num [sampleReq]) (by norm_num)

/-- C9: the trading engine worker's loop never terminates because of an
exception raised inside an iteration: run over any finite prefix of its
event stream, the loop processes every event (one decision per event,
so no event, an exception included, stops it), an exception event is
absorbed into a backoff decision with the `position_open` flag
untouched, and the loop then proceeds to the remaining events. -/
theorem worker_absorbs_iteration_errors :
    (∀ (pos : Bool) (evs : List IterEvent),
      (workerRun pos evs).2.length = evs.length)
    ∧ (∀ (pos : Bool) (evs : List IterEvent),
      workerRun pos (IterEvent.raisedError :: evs)
        = ((workerRun pos evs).1, WorkerDecision.backoffError :: (workerRun pos evs).2))
    ∧ (∀ pos : Bool,
      workerIteration pos IterEvent.raisedError = (pos, WorkerDecision.backoffError)) := by
  refine ⟨fun pos evs => ?_, fun pos evs => rfl, fun pos => rfl⟩
  induction evs generalizing pos with
  | nil => rfl
  | cons e es ih =>
      show ((workerRun (workerIteration pos e).1 es).2.length + 1 = es.length + 1)
      rw [ih]

/-! ### The trade ledger empty implies capital unchanged (C2) -/

theorem fold_inv_no_trades (req : BacktestRequest) (c0 : ℚ)
    (hs : 0 < req.position_size) :
    ∀ (bars : List BarRow) (st : BTState), (∀ b ∈ bars, 0 < b.close) →
      (st.trades = [] → 0 < st.position ∨ (st.capital = c0 ∧ st.position = 0)) →
      ((bars.foldl (processBar req) st).trades = [] →
        0 < (bars.foldl (processBar req) st).position ∨
          ((bars.foldl (processBar req) st).capital = c0 ∧
            (bars.foldl (processBar req) st).position = 0)) := by
  intro bars
  induction bars with
  | nil => intro st _ hP; exact hP
  | cons b bs ih =>
      intro st hc hP
      have hcb : 0 < b.close := hc b (List.mem_cons_self b bs)
      have hcs : ∀ x ∈ bs, 0 < x.close := fun x hx => hc x (List.mem_cons_of_mem b hx)
      show (bs.foldl (processBar req) (processBar req st b)).trades = [] → _
      refine ih (processBar req st b) hcs ?_
      by_cases h1 : st.position = 0 ∧ b.rsi < req.rsi_buy ∧ 0 < st.capital
      · rw [processBar_buy req st b h1.1 h1.2.1 h1.2.2]
        intro _
        left
        exact div_pos (mul_pos h1.2.2 hs) hcb
      · by_cases h2 : 0 < st.position ∧ req.rsi_sell < b.rsi
        · rw [processBar_sell req st b h2.1 h2.2]
          intro habs
          exact absurd habs (by simp)
        · rw [processBar_hold req st b h1 h2]
          exact hP

/-- C2: a completed backtest run whose trade ledger is empty leaves the
capital untouched: `final_capital = initial_capital` exactly (the
endpoint then returns `round(final_capital, 2) = round(initial_capital, 2)`).
Hypotheses: the request's `position_size` is positive (pydantic enforces
`position_size ∈ (0,1]`) and all close prices are positive. -/
theorem sim_zero_trades_capital (req : BacktestRequest) (bars : List BarRow)
    (hs : 0 < req.position_size) (hc : ∀ b ∈ bars, 0 < b.close)
    (h0 : (runBacktest req bars).trades = []) :
    (runBacktest req bars).capital = req.initial_capital := by
  have hfold := fold_inv_no_trades req req.initial_capital hs bars (initState req) hc
    (fun _ => Or.inr ⟨rfl, rfl⟩)
  by_cases hp : 0 < (bars.foldl (processBar req) (initState req)).position
  · exfalso
    cases hlast : bars.getLast? with
    | none =>
        rw [List.getLast?_eq_none_iff] at hlast
        subst hlast
        exact absurd hp (by norm_num [initState])
    | some lb =>
        have : (runBacktest req bars).trades =
            (bars.foldl (processBar req) (initState req)).trades ++
              [mkTrade (bars.foldl (processBar req) (initState req)).entry_time lb.ts
                (bars.foldl (processBar req) (initState req)).entry_price lb.close
                (bars.foldl (processBar req) (initState req)).position] := by
          unfold runBacktest closeOpenPosition
          rw [if_pos hp, hlast]
        rw [this] at h0
        exact absurd h0 (by simp)
  · have hrb : runBacktest req bars = bars.foldl (processBar req) (initState req) := by
      unfold runBacktest closeOpenPosition
      rw [if_neg hp]
    rw [hrb] at h0 ⊢
    rcases hfold h0 with h | h
    · exact absurd h hp
    · exact h.1

/-- Witness for C2: a one-bar run whose RSI (50) never drops below the
buy threshold produces no trades and ends with capital exactly 1000. -/
theorem sim_zero_trades_witness :
    (runBacktest sampleReq [⟨"t0", 10, 50⟩]).capital = 1000 :=
  sim_zero_trades_capital sampleReq [⟨"t0", 10, 50⟩]
    (by norm_num [sampleReq])
    (by intro b hb; simp at hb; rw [hb]; norm_num)
    (by with_unfolding_all rfl)

/-! ### Force-closing an open position (C3) -/

/-- C3 (amended): if a position is still open after the last bar is
processed, `run_backtest` force-closes it at the last bar's close and
appends exactly one final trade, whose `exit_time` is the last bar's
timestamp and whose recorded `exit_price` is the last bar's close
rounded to 2 decimals (the code stores `round(final_price, 2)`); the
run then holds no position. -/
theorem sim_force_close (req : BacktestRequest) (bars : List BarRow) (lb : BarRow)
    (hl : bars.getLast? = some lb)
    (hp : 0 < (bars.foldl (processBar req) (initState req)).position) :
    (runBacktest req bars).trades =
      (bars.foldl (processBar req) (initState req)).trades ++
        [mkTrade (bars.foldl (processBar req) (initState req)).entry_time lb.ts
          (bars.foldl (processBar req) (initState req)).entry_price lb.close
          (bars.foldl (processBar req) (initState req)).position]
    ∧ (mkTrade (bars.foldl (processBar req) (initState req)).entry_time lb.ts
        (bars.foldl (processBar req) (initState req)).entry_price lb.close
        (bars.foldl (processBar req) (initState req)).position).exit_time = lb.ts
    ∧ (mkTrade (bars.foldl (processBar req) (initState req)).entry_time lb.ts
        (bars.foldl (processBar req) (initState req)).entry_price lb.close
        (bars.foldl (processBar req) (initState req)).position).exit_price
          = round2 lb.close
    ∧ (runBacktest req bars).position = 0 := by
  have h : runBacktest req bars =
      { bars.foldl (processBar req) (initState req) with
          capital := (bars.foldl (processBar req) (initState req)).capital +
            (bars.foldl (processBar req) (initState req)).position * lb.close
        , trades := (bars.foldl (processBar req) (initState req)).trades ++
            [mkTrade (bars.foldl (processBar req) (initState req)).entry_time lb.ts
              (bars.foldl (processBar req) (initState req)).entry_price lb.close
              (bars.foldl (processBar req) (initState req)).position]
        , position := 0 } := by
    unfold runBacktest closeOpenPosition
    rw [if_pos hp, hl]
  rw [h]
  exact ⟨rfl, rfl, rfl, rfl⟩

/-- Counterexample to C3 as stated: a run that buys at close 4 and
force-closes at last close 0.125 records `exit_price = 0.12`
(= `round(0.125, 2)`), not the last bar's close 0.125; the `exit_time`
is the last bar's timestamp as claimed.  (0.125, 4 and 250 are exact
binary floats, so the Python run records exactly these numbers.) -/
theorem sim_force_close_cex :
    (runBacktest sampleReq [⟨"t0", 4, 20⟩, ⟨"t1", 1/8, 50⟩]).trades
      = [{ entry_time := "t0", exit_time := "t1", entry_price := 4, exit_price := 0.12
         , profit := -968.75, profit_pct := -96.88, shares := 250 }]
    ∧ ([⟨"t0", 4, 20⟩, ⟨"t1", 1/8, 50⟩] : List BarRow).getLast? = some ⟨"t1", 1/8, 50⟩
    ∧ (0.12 : ℚ) ≠ 1/8 := by
  refine ⟨by with_unfolding_all rfl, rfl, by with_unfolding_all decide⟩

/-- Witness for C3 (amended): a one-bar run that buys on its only bar
ends flat after the forced close. -/
theorem sim_force_close_witness :
    (runBacktest sampleReq [⟨"t0", 4, 20⟩]).position = 0 :=
  (sim_force_close sampleReq [⟨"t0", 4, 20⟩] ⟨"t0", 4, 20⟩ rfl
    (by with_unfolding_all decide)).2.2.2

/-! ### The trade ledger invariant (C4) -/

theorem fold_trades_wellformed (req : BacktestRequest) :
    ∀ (bars : List BarRow) (st : BTState),
      (∀ t ∈ st.trades, ∃ et xt en ex p, 0 < p ∧ t = mkTrade et xt en ex p) →
      ∀ t ∈ (bars.foldl (processBar req) st).trades,
        ∃ et xt en ex p, 0 < p ∧ t = mkTrade et xt en ex p := by
  intro bars
  induction bars with
  | nil => intro st h; exact h
  | cons b bs ih =>
      intro st h
      refine ih (processBar req st b) ?_
      by_cases h1 : st.position = 0 ∧ b.rsi < req.rsi_buy ∧ 0 < st.capital
      · rw [processBar_buy req st b h1.1 h1.2.1 h1.2.2]
        exact h
      · by_cases h2 : 0 < st.position ∧ req.rsi_sell < b.rsi
        · rw [processBar_sell req st b h2.1 h2.2]
          intro t ht
          rcases List.mem_append.mp ht with hmem | hmem
          · exact h t hmem
          · rcases List.mem_singleton.mp hmem with rfl
            exact ⟨st.entry_time, b.ts, st.entry_price, b.close, st.position, h2.1, rfl⟩
        · rw [processBar_hold req st b h1 h2]
          exact h

/-- C4 (amended): every trade ever appended to the ledger is built by
`mkTrade` from an underlying position quantity `p > 0` and raw entry /
exit prices: its recorded `profit` is `round(p * (exit - entry), 2)`,
its recorded `profit_pct` is `round((exit - entry)/entry * 100, 2)`,
and its recorded `shares` is `round(p, 4)`.  The exact identities of
the claim hold between the pre-rounding quantities; the recorded
(rounded) fields satisfy them only up to rounding. -/
theorem trade_ledger_invariant (req : BacktestRequest) (bars : List BarRow)
    (t : Trade) (ht : t ∈ (runBacktest req bars).trades) :
    ∃ et xt en ex p, 0 < p ∧ t = mkTrade et xt en ex p
      ∧ t.profit = round2 (p * (ex - en))
      ∧ t.profit_pct = round2 ((ex - en) / en * 100)
      ∧ t.shares = round4 p := by
  have hfold := fold_trades_wellformed req bars (initState req) (by intro t ht; simp [initState] at ht)
  have hall : ∀ u ∈ (runBacktest req bars).trades,
      ∃ et xt en ex p, 0 < p ∧ u = mkTrade et xt en ex p := by
    intro u hu
    unfold runBacktest closeOpenPosition at hu
    by_cases hp : 0 < (bars.foldl (processBar req) (initState req)).position
    · rw [if_pos hp] at hu
      cases hlast : bars.getLast? with
      | none => rw [hlast] at hu; exact hfold u hu
      | some lb =>
          rw [hlast] at hu
          rcases List.mem_append.mp hu with hmem | hmem
          · exact hfold u hmem
          · rcases List.mem_singleton.mp hmem with rfl
            exact ⟨_, lb.ts, _, lb.close, _, hp, rfl⟩
    · rw [if_neg hp] at hu
      exact hfold u hu
  rcases hall t ht with ⟨et, xt, en, ex, p, hp0, hmk⟩
  refine ⟨et, xt, en, ex, p, hp0, hmk, ?_, ?_, ?_⟩
  · rw [hmk]
    show round2 (p * ex - p * en) = round2 (p * (ex - en))
    rw [mul_sub]
  · rw [hmk]
    rfl
  · rw [hmk]
    rfl

/-- Counterexample to C4 as stated: a run that buys 125 shares at close
8 and force-closes at close 0.0625 records
`profit = -992.19 = round(125*(0.0625-8), 2)` and `exit_price = 0.06`,
and `-992.19 ≠ 125 * (0.06 - 8) = -992.5`: the recorded fields do not
satisfy `profit == shares * (exit_price - entry_price)` exactly, nor
`profit_pct == (exit_price - entry_price)/entry_price*100`
(`-99.22 ≠ -99.25`).  All inputs are exact binary floats. -/
theorem trade_ledger_invariant_cex :
    (runBacktest sampleReq [⟨"a", 8, 10⟩, ⟨"b", 1/16, 40⟩]).trades
      = [{ entry_time := "a", exit_time := "b", entry_price := 8, exit_price := 0.06
         , profit := -992.19, profit_pct := -99.22, shares := 125 }]
    ∧ ¬ ((-992.19 : ℚ) = 125 * ((0.06 : ℚ) - 8))
    ∧ ¬ ((-99.22 : ℚ) = ((0.06 : ℚ) - 8) / 8 * 100) := by
  refine ⟨by with_unfolding_all rfl, by with_unfolding_all decide,
    by with_unfolding_all decide⟩

/-- Witness for C4 (amended): the forced-close trade of a one-bar run
satisfies the pre-rounding invariant. -/
theorem trade_ledger_invariant_witness :
    ∃ et xt en ex p, 0 < p
      ∧ mkTrade (some "t0") "t0" 4 4 250 = mkTrade et xt en ex p
      ∧ (mkTrade (some "t0") "t0" 4 4 250).profit = round2 (p * (ex - en))
      ∧ (mkTrade (some "t0") "t0" 4 4 250).profit_pct = round2 ((ex - en) / en * 100)
      ∧ (mkTrade (some "t0") "t0" 4 4 250).shares = round4 p :=
  trade_ledger_invariant sampleReq [⟨"t0", 4, 20⟩] (mkTrade (some "t0") "t0" 4 4 250)
    (by with_unfolding_all decide)

/-! ### Max drawdown (C5) -/

theorem ddStep_eq (peak mdd v : ℚ) :
    ddStep (peak, mdd) v =
      (if v > peak then v else peak,
        if ((if v > peak then v else peak) - v) / (if v > peak then v else peak) > mdd
        then ((if v > peak then v else peak) - v) / (if v > peak then v else peak)
        else mdd) := rfl

theorem dd_fold_bounds :
    ∀ (l : List ℚ) (peak mdd : ℚ), 0 < peak → 0 ≤ mdd → mdd ≤ 1 →
      (∀ v ∈ l, 0 ≤ v) →
      0 < (l.foldl ddStep (peak, mdd)).1
      ∧ 0 ≤ (l.foldl ddStep (peak, mdd)).2
      ∧ (l.foldl ddStep (peak, mdd)).2 ≤ 1 := by
  intro l
  induction l with
  | nil => intro peak mdd h1 h2 h3 _; exact ⟨h1, h2, h3⟩
  | cons v vs ih =>
      intro peak mdd h1 h2 h3 hv
      have hv0 : 0 ≤ v := hv v (List.mem_cons_self v vs)
      have hvs : ∀ w ∈ vs, 0 ≤ w := fun w hw => hv w (List.mem_cons_of_mem v hw)
      have hfold : (v :: vs).foldl ddStep (peak, mdd) =
          vs.foldl ddStep (ddStep (peak, mdd) v) := rfl
      rw [hfold, ddStep_eq]
      have hpeak : 0 < (if v > peak then v else peak) := by
        by_cases hc : v > peak
        · rw [if_pos hc]; exact lt_trans h1 hc
        · rw [if_neg hc]; exact h1
      have hle : v ≤ (if v > peak then v else peak) := by
        by_cases hc : v > peak
        · rw [if_pos hc]
        · rw [if_neg hc]; exact not_lt.mp hc
      have hdd0 : 0 ≤ ((if v > peak then v else peak) - v) / (if v > peak then v else peak) :=
        div_nonneg (sub_nonneg.mpr hle) hpeak.le
      have hdd1 : ((if v > peak then v else peak) - v) / (if v > peak then v else peak) ≤ 1 := by
        rw [div_le_one hpeak]
        linarith
      refine ih _ _ hpeak ?_ ?_ hvs
      · by_cases hc : ((if v > peak then v else peak) - v) / (if v > peak then v else peak) > mdd
        · rw [if_pos hc]; exact hdd0
        · rw [if_neg hc]; exact h2
      · by_cases hc : ((if v > peak then v else peak) - v) / (if v > peak then v else peak) > mdd
        · rw [if_pos hc]; exact hdd1
        · rw [if_neg hc]; exact h3

theorem dd_fold_sorted_zero :
    ∀ (l : List ℚ) (peak : ℚ), 0 < peak → l.Sorted (· ≤ ·) →
      (∀ v ∈ l, peak ≤ v) → (l.foldl ddStep (peak, 0)).2 = 0 := by
  intro l
  induction l with
  | nil => intro peak _ _ _; rfl
  | cons v vs ih =>
      intro peak hpk hsort hub
      have hpv : peak ≤ v := hub v (List.mem_cons_self v vs)
      obtain ⟨hhead, htail⟩ := List.sorted_cons.mp hsort
      have hpeak : (if v > peak then v else peak) = v := by
        by_cases hc : v > peak
        · rw [if_pos hc]
        · rw [if_neg hc]; exact le_antisymm hpv (not_lt.mp hc)
      have hstep : ddStep (peak, 0) v = (v, 0) := by
        rw [ddStep_eq, hpeak, sub_self, zero_div, if_neg (lt_irrefl (0 : ℚ))]
      have hfold : (v :: vs).foldl ddStep (peak, 0) =
          vs.foldl ddStep (ddStep (peak, 0) v) := rfl
      rw [hfold, hstep]
      exact ih v (lt_of_lt_of_le hpk hpv) htail hhead

/-- C5 (amended): for the metrics of `calculate_metrics`, the max
drawdown lies in [0, 100] whenever `initial_capital > 0` and the equity
values are nonnegative (as holds for every curve produced by a backtest
over positive closes); it is 0 whenever the equity curve is
monotonically non-decreasing *and never drops below initial_capital*
(the running peak is seeded with `initial_capital`, so a non-decreasing
curve starting below it still shows a positive drawdown); and it is 0
whenever the trade ledger is empty. -/
theorem metrics_drawdown_amended (trades : List Trade) (init : ℚ)
    (ec : List ℚ) (itv : String) :
    (0 < init → (∀ v ∈ ec, 0 ≤ v) →
      0 ≤ (calculate_metrics trades init ec itv).max_drawdown
      ∧ (calculate_metrics trades init ec itv).max_drawdown ≤ 100)
    ∧ (0 < init → ec.Sorted (· ≤ ·) → (∀ v ∈ ec, init ≤ v) →
      (calculate_metrics trades init ec itv).max_drawdown = 0)
    ∧ (trades = [] → (calculate_metrics trades init ec itv).max_drawdown = 0) := by
  by_cases ht : trades.isEmpty
  · have h0 : (calculate_metrics trades init ec itv).max_drawdown = 0 := by
      unfold calculate_metrics
      rw [if_pos ht]
    refine ⟨fun _ _ => ?_, fun _ _ _ => h0, fun _ => h0⟩
    rw [h0]
    norm_num
  · have hdd : (calculate_metrics trades init ec itv).max_drawdown =
        maxDrawdown init ec * 100 := by
      unfold calculate_metrics
      rw [if_neg ht]
    refine ⟨fun hi hv => ?_, fun hi hs hub => ?_, fun he => ?_⟩
    · obtain ⟨_, hlo, hhi⟩ := dd_fold_bounds ec init 0 hi (le_refl 0) (by norm_num) hv
      rw [hdd]
      unfold maxDrawdown
      constructor
      · positivity
      · nlinarith
    · rw [hdd]
      unfold maxDrawdown
      rw [dd_fold_sorted_zero ec init hi hs hub]
      norm_num
    · exact absurd (List.isEmpty_iff.mpr he) ht

/-- Counterexample to C5 as stated over arbitrary metric inputs: with a
nonempty ledger and `initial_capital = 1000`, the equity curve `[-5]`
yields `max_drawdown = 100.5 > 100`, and the monotonically
non-decreasing curve `[500, 600]` yields `max_drawdown = 50 ≠ 0`
(the running peak is seeded with the initial capital 1000, above the
whole curve). -/
theorem metrics_drawdown_cex :
    (calculate_metrics [sampleTrade] 1000 [-5] "1d").max_drawdown = 100.5
    ∧ ¬ ((100.5 : ℚ) ≤ 100)
    ∧ List.Sorted (· ≤ ·) ([500, 600] : List ℚ)
    ∧ (calculate_metrics [sampleTrade] 1000 [500, 600] "1d").max_drawdown = 50
    ∧ (50 : ℚ) ≠ 0 := by
  refine ⟨by with_unfolding_all rfl, by with_unfolding_all decide, ?_,
    by with_unfolding_all rfl, by with_unfolding_all decide⟩
  simp [List.sorted_cons]
  norm_num

/-- Witness for C5 (amended): on a non-decreasing curve that starts at
the initial capital, the drawdown is 0. -/
theorem metrics_drawdown_witness :
    (calculate_metrics [sampleTrade] 1000 [1000, 1100] "1d").max_drawdown = 0 :=
  (metrics_drawdown_amended [sampleTrade] 1000 [1000, 1100] "1d").2.1
    (by norm_num)
    (by simp [List.sorted_cons]; norm_num)
    (by intro v hv; simp at hv; rcases hv with rfl | rfl <;> norm_num)

/-! ### The Sharpe ratio branch (C1) -/

theorem listSum_eq_sum (l : List ℚ) : listSum l = l.sum := by
  rw [List.sum_eq_foldl]
  rfl

theorem sampleVariance_allEq (l : List ℚ)
    (h : ∀ r ∈ l, ∀ s ∈ l, r = s) : sampleVariance l = 0 := by
  cases l with
  | nil =>
      unfold sampleVariance
      rw [listSum_eq_sum]
      simp
  | cons a t =>
      have hall : ∀ r ∈ (a :: t), r = a := fun r hr => h r hr a (List.mem_cons_self a t)
      have hlen : ((a :: t).length : ℚ) ≠ 0 := Nat.cast_ne_zero.mpr (by simp)
      have hmean : listMean (a :: t) = a := by
        unfold listMean
        rw [listSum_eq_sum, List.sum_eq_card_nsmul (a :: t) a hall, nsmul_eq_mul]
        field_simp
      unfold sampleVariance
      rw [listSum_eq_sum, List.sum_eq_zero, zero_div]
      intro x hx
      rcases List.mem_map.mp hx with ⟨r, hr, rfl⟩
      rw [hall r hr, hmean, sub_self]
      exact zero_pow (by norm_num)

/-- C1 (amended): for a metrics computation over a *nonempty* trade
ledger, the Sharpe ratio is null iff the equity curve has length ≤ 1,
and whenever the period-over-period return series has zero sample
variance (in particular when all returns are identical) and the curve
has more than one point, the Sharpe ratio is the exact value 0 — not
null and not infinite.  (Over an empty ledger `calculate_metrics`
returns a null Sharpe no matter how long the equity curve is, which
falsifies the claim's "iff" as stated; see the counterexample.) -/
theorem metrics_sharpe_amended (trades : List Trade) (init : ℚ)
    (ec : List ℚ) (itv : String) (hne : trades ≠ []) :
    ((calculate_metrics trades init ec itv).sharpe = none ↔ ec.length ≤ 1)
    ∧ ((∀ r ∈ pctChanges ec, ∀ s ∈ pctChanges ec, r = s) → 1 < ec.length →
        (calculate_metrics trades init ec itv).sharpe = some SharpeVal.zero) := by
  have hemp : ¬ (trades.isEmpty = true) := by
    simp [List.isEmpty_iff]
    exact hne
  have hs : (calculate_metrics trades init ec itv).sharpe =
      (if 1 < ec.length then
        (if 0 < sampleVariance (pctChanges ec) then
          some (SharpeVal.computed (listMean (pctChanges ec))
            (sampleVariance (pctChanges ec)) itv)
        else some SharpeVal.zero)
      else none) := by
    unfold calculate_metrics
    rw [if_neg hemp]
  constructor
  · rw [hs]
    by_cases hlen : 1 < ec.length
    · rw [if_pos hlen]
      constructor
      · intro h
        exfalso
        by_cases hv : 0 < sampleVariance (pctChanges ec)
        · rw [if_pos hv] at h
          exact Option.noConfusion h
        · rw [if_neg hv] at h
          exact Option.noConfusion h
      · intro h
        exact absurd h (by omega)
    · rw [if_neg hlen]
      exact ⟨fun _ => by omega, fun _ => rfl⟩
  · intro hall hlen
    rw [hs, if_pos hlen,
      if_neg (by rw [sampleVariance_allEq _ hall]; exact lt_irrefl 0)]

/-- Counterexample to C1 as stated: an empty trade ledger with an
equity curve of length 3 (> 1) still yields a null Sharpe ratio,
because `calculate_metrics` returns early with `sharpe_ratio = None`
whenever the ledger is empty — the claimed "null iff curve length ≤ 1"
fails in that case. -/
theorem metrics_sharpe_cex :
    (calculate_metrics [] 1000 [1000, 1100, 1200] "1d").sharpe = none
    ∧ ¬ (([1000, 1100, 1200] : List ℚ).length ≤ 1) :=
  ⟨rfl, by decide⟩

/-- Witness for C1 (amended): one trade, a two-point equity curve with
a single (hence trivially constant) return: Sharpe = exactly 0. -/
theorem metrics_sharpe_witness :
    (calculate_metrics [sampleTrade] 1000 [100, 110] "1d").sharpe
      = some SharpeVal.zero :=
  (metrics_sharpe_amended [sampleTrade] 1000 [100, 110] "1d" (by simp)).2
    (by with_unfolding_all decide) (by decide)

/-! ### Annualization factor (C7) -/

/-- C7 (amended): `get_annualization_factor` lowercases the interval
and dispatches on *substring* membership of the unit letters 'm', 'h',
'd' (in that order, anywhere in the string, not only trailing); when
the residue left after deleting every occurrence of the matched letter
parses as a nonzero integer n, the factor is sqrt(365*24*60/n),
sqrt(365*24/n) or sqrt(365/n) respectively (the embedding returns the
radicand); when the residue does not parse as an integer the function
raises `ValueError` (and `ZeroDivisionError` when it parses as 0)
instead of falling back — so "it never fails" is false; only strings
containing none of the three letters fall back to sqrt(365). -/
theorem annualization_amended (s : String) :
    (¬ (pyContainsChar (pyLower s) 'm' = true) → ¬ (pyContainsChar (pyLower s) 'h' = true) →
      ¬ (pyContainsChar (pyLower s) 'd' = true) →
      get_annualization_factor s = Except.ok 365)
    ∧ (∀ n : ℤ, pyContainsChar (pyLower s) 'm' = true →
        pyIntParse (removeAll (pyLower s) 'm') = some n → ¬ n = 0 →
        get_annualization_factor s = Except.ok ((365 * 24 * 60 : ℚ) / (n : ℚ)))
    ∧ (∀ n : ℤ, ¬ (pyContainsChar (pyLower s) 'm' = true) → pyContainsChar (pyLower s) 'h' = true →
        pyIntParse (removeAll (pyLower s) 'h') = some n → ¬ n = 0 →
        get_annualization_factor s = Except.ok ((365 * 24 : ℚ) / (n : ℚ)))
    ∧ (∀ n : ℤ, ¬ (pyContainsChar (pyLower s) 'm' = true) → ¬ (pyContainsChar (pyLower s) 'h' = true) →
        pyContainsChar (pyLower s) 'd' = true →
        pyIntParse (removeAll (pyLower s) 'd') = some n → ¬ n = 0 →
        get_annualization_factor s = Except.ok ((365 : ℚ) / (n : ℚ)))
    ∧ (pyContainsChar (pyLower s) 'm' = true → pyIntParse (removeAll (pyLower s) 'm') = none →
        get_annualization_factor s = Except.error ()) := by
  refine ⟨fun h1 h2 h3 => ?_, fun n h1 hp hn => ?_, fun n h1 h2 hp hn => ?_,
    fun n h1 h2 h3 hp hn => ?_, fun h1 hp => ?_⟩
  · simp only [get_annualization_factor]
    rw [if_neg h1, if_neg h2, if_neg h3]
  · simp only [get_annualization_factor]
    rw [if_pos h1, hp]
    simp only []
    rw [if_neg hn]
  · simp only [get_annualization_factor]
    rw [if_neg h1, if_pos h2, hp]
    simp only []
    rw [if_neg hn]
  · simp only [get_annualization_factor]
    rw [if_neg h1, if_neg h2, if_pos h3, hp]
    simp only []
    rw [if_neg hn]
  · simp only [get_annualization_factor]
    rw [if_pos h1, hp]

/-- Counterexample to C7 as stated: the interval string "am" contains
'm', the residue after deleting it ("a") is not an integer literal, so
`int("a")` raises `ValueError` — the function fails instead of
returning the sqrt(365) fallback the claim promises for every
unparseable interval. -/
theorem annualization_raises_cex :
    get_annualization_factor "am" = Except.error ()
    ∧ get_annualization_factor "am" ≠ Except.ok 365 := by
  constructor
  · rfl
  · intro h
    rw [show get_annualization_factor "am" = Except.error () from rfl] at h
    exact Except.noConfusion h

/-- Witness for C7 (amended): "4h" parses as 4 hours, radicand
365*24/4. -/
theorem annualization_witness :
    get_annualization_factor "4h" = Except.ok ((365 * 24 : ℚ) / ((4 : ℤ) : ℚ)) :=
  (annualization_amended "4h").2.2.1 4 (by decide) (by decide) (by decide) (by decide)

/-! ### RSI strategy signals (C8) -/

theorem zip_get?_eq {α β : Type} :
    ∀ (as : List α) (bs : List β) (i : ℕ),
      (as.zip bs).get? i =
        (as.get? i).bind (fun a => (bs.get? i).map (fun b => (a, b))) := by
  intro as
  induction as with
  | nil => intro bs i; simp
  | cons a as ih =>
      intro bs i
      cases bs with
      | nil => simp
      | cons b bs =>
          cases i with
          | zero => rfl
          | succ j => exact ih bs j

theorem crossBelow_eq_true_iff (thr : ℚ) (a b : Option ℚ) :
    crossBelow thr (a, b) = true ↔
      ∃ p c, a = some p ∧ b = some c ∧ c < thr ∧ thr ≤ p := by
  cases a with
  | none => simp [crossBelow]
  | some p =>
      cases b with
      | none => simp [crossBelow]
      | some c => simp [crossBelow, and_assoc]

theorem crossAbove_eq_true_iff (thr : ℚ) (a b : Option ℚ) :
    crossAbove thr (a, b) = true ↔
      ∃ p c, a = some p ∧ b = some c ∧ thr < c ∧ p ≤ thr := by
  cases a with
  | none => simp [crossAbove]
  | some p =>
      cases b with
      | none => simp [crossAbove]
      | some c => simp [crossAbove, and_assoc]

theorem cross_exclusive (buyT sellT : ℚ) (pc : Option ℚ × Option ℚ)
    (hb : crossBelow buyT pc = true) : ¬ (crossAbove sellT pc = true) := by
  intro hA
  rcases pc with ⟨a, b⟩
  rcases (crossBelow_eq_true_iff buyT a b).mp hb with ⟨p, c, rfl, rfl, h1, h2⟩
  rcases (crossAbove_eq_true_iff sellT (some p) (some c)).mp hA
    with ⟨p2, c2, hp2, hc2, h3, h4⟩
  have hpp : p = p2 := Option.some_inj.mp hp2
  have hcc : c = c2 := Option.some_inj.mp hc2
  subst hpp
  subst hcc
  linarith

theorem signalFor_eq_buy_iff (buyT sellT : ℚ) (pc : Option ℚ × Option ℚ) :
    signalFor buyT sellT pc = Signal.buy ↔ crossBelow buyT pc = true := by
  unfold signalFor
  constructor
  · intro h
    by_cases hA : crossAbove sellT pc = true
    · rw [if_pos hA] at h
      exact Signal.noConfusion h
    · rw [if_neg hA] at h
      by_cases hB : crossBelow buyT pc = true
      · exact hB
      · rw [if_neg hB] at h
        exact Signal.noConfusion h
  · intro hB
    rw [if_neg (cross_exclusive buyT sellT pc hB), if_pos hB]

theorem signalFor_eq_sell_iff (buyT sellT : ℚ) (pc : Option ℚ × Option ℚ) :
    signalFor buyT sellT pc = Signal.sell ↔ crossAbove sellT pc = true := by
  unfold signalFor
  constructor
  · intro h
    by_cases hA : crossAbove sellT pc = true
    · exact hA
    · rw [if_neg hA] at h
      by_cases hB : crossBelow buyT pc = true
      · rw [if_pos hB] at h
        exact Signal.noConfusion h
      · rw [if_neg hB] at h
        exact Signal.noConfusion h
  · intro hA
    rw [if_pos hA]

theorem signalFor_same_hold (buyT sellT : ℚ) (c : Option ℚ) :
    signalFor buyT sellT (c, c) = Signal.hold := by
  unfold signalFor
  rw [if_neg, if_neg]
  · intro hB
    rcases (crossBelow_eq_true_iff buyT c c).mp hB with ⟨p, q, hp, hq, h1, h2⟩
    rw [hp] at hq
    rcases Option.some_injective _ hq with rfl
    linarith
  · intro hA
    rcases (crossAbove_eq_true_iff sellT c c).mp hA with ⟨p, q, hp, hq, h1, h2⟩
    rw [hp] at hq
    rcases Option.some_injective _ hq with rfl
    linarith

theorem signalFor_none_hold (buyT sellT : ℚ) (b : Option ℚ) :
    signalFor buyT sellT (none, b) = Signal.hold := by
  unfold signalFor
  rw [if_neg, if_neg]
  · intro hB
    rcases (crossBelow_eq_true_iff buyT none b).mp hB with ⟨p, q, hp, _, _, _⟩
    exact Option.noConfusion hp
  · intro hA
    rcases (crossAbove_eq_true_iff sellT none b).mp hA with ⟨p, q, hp, _, _, _⟩
    exact Option.noConfusion hp

/-- C8: `RSIStrategy.generate_signals` is edge-triggered: one signal
per bar; the signal on bar i is BUY exactly when the RSI exists on
bars i-1 and i and crosses from ≥ buy_threshold to < buy_threshold,
SELL exactly when it crosses from ≤ sell_threshold to > sell_threshold,
and HOLD otherwise; a constant RSI column yields only HOLD; and a bar
whose previous RSI is already below the buy threshold can never emit
BUY again (no re-firing during a sustained below-threshold stretch). -/
theorem rsi_signals_edge_triggered (buyT sellT : ℚ) (rsi : List (Option ℚ)) :
    (generate_signals buyT sellT rsi).length = rsi.length
    ∧ (∀ i : ℕ, (generate_signals buyT sellT rsi).get? i = some Signal.buy ↔
        (∃ p c, (none :: rsi).get? i = some (some p) ∧ rsi.get? i = some (some c)
          ∧ c < buyT ∧ buyT ≤ p))
    ∧ (∀ i : ℕ, (generate_signals buyT sellT rsi).get? i = some Signal.sell ↔
        (∃ p c, (none :: rsi).get? i = some (some p) ∧ rsi.get? i = some (some c)
          ∧ sellT < c ∧ p ≤ sellT))
    ∧ (∀ r0 : Option ℚ, (∀ x ∈ rsi, x = r0) →
        ∀ sg ∈ generate_signals buyT sellT rsi, sg = Signal.hold)
    ∧ (∀ (i : ℕ) (p : ℚ), (none :: rsi).get? i = some (some p) → p < buyT →
        ¬ ((generate_signals buyT sellT rsi).get? i = some Signal.buy)) := by
  have hget : ∀ i : ℕ, (generate_signals buyT sellT rsi).get? i =
      (((none :: rsi).get? i).bind
        (fun a => (rsi.get? i).map (fun b => (a, b)))).map (signalFor buyT sellT) := by
    intro i
    unfold generate_signals
    rw [List.get?_map, zip_get?_eq]
  have hbuy : ∀ i : ℕ, (generate_signals buyT sellT rsi).get? i = some Signal.buy ↔
      (∃ p c, (none :: rsi).get? i = some (some p) ∧ rsi.get? i = some (some c)
        ∧ c < buyT ∧ buyT ≤ p) := by
    intro i
    rw [hget i]
    cases hA : (none :: rsi).get? i with
    | none => simp
    | some a =>
        cases hB : rsi.get? i with
        | none => simp
        | some b =>
            show some (signalFor buyT sellT (a, b)) = some Signal.buy ↔ _
            rw [Option.some_inj, signalFor_eq_buy_iff, crossBelow_eq_true_iff]
            simp
  refine ⟨?_, hbuy, ?_, ?_, ?_⟩
  · unfold generate_signals
    rw [List.length_map, List.length_zip]
    simp
  · intro i
    rw [hget i]
    cases hA : (none :: rsi).get? i with
    | none => simp
    | some a =>
        cases hB : rsi.get? i with
        | none => simp
        | some b =>
            show some (signalFor buyT sellT (a, b)) = some Signal.sell ↔ _
            rw [Option.some_inj, signalFor_eq_sell_iff, crossAbove_eq_true_iff]
            simp
  · intro r0 hconst sg hsg
    unfold generate_signals at hsg
    rcases List.mem_map.mp hsg with ⟨pc, hpc, rfl⟩
    rcases pc with ⟨a, b⟩
    obtain ⟨ha, hb⟩ := List.of_mem_zip hpc
    have hb0 : b = r0 := hconst b hb
    rcases List.mem_cons.mp ha with rfl | ha
    · exact signalFor_none_hold buyT sellT b
    · rw [hconst a ha, hb0]
      exact signalFor_same_hold buyT sellT r0
  · intro i p hp hlt hbuyi
    rcases (hbuy i).mp hbuyi with ⟨p2, c, hp2, _, _, h2⟩
    rw [hp] at hp2
    have hpp : p = p2 := Option.some_inj.mp (Option.some_inj.mp hp2)
    subst hpp
    linarith

/-- Witness for C8: with thresholds (30, 70) and RSI column
[35, 20], bar 1 carries a BUY (RSI crossed 30 downward), and the
constant column [50, 50] produces only HOLD. -/
theorem rsi_signals_witness :
    (generate_signals 30 70 [some 35, some 20]).get? 1 = some Signal.buy :=
  ((rsi_signals_edge_triggered 30 70 [some 35, some 20]).2.1 1).mpr
    ⟨35, 20, rfl, rfl, by norm_num, by norm_num⟩
